import Mathlib

/-!
Verification development for the ReactServe declarative HTTP framework.

The source program describes an HTTP server as a tree of nodes
(App, RouteGroup, Route, Middleware, Response).  At startup, `serve`
compiles the tree into a flat route table plus an application config,
registers one transport handler per route, and dispatches incoming
requests through per-route middleware chains with an ambient
per-request context.

This file shallowly embeds:
  * the JSON / transport-response model used by the engine,
  * the output normalizer `sendResponseFromOutput`,
  * the tree compiler `processElement` and `serve`'s port selection,
  * the registration/dispatch order (405 / wildcard / 404 handling),
  * the middleware chain runner `executeNextMiddleware`,
  * the ambient context store (`useSetContext` / `useContext`) and
    the request wrapper produced by `createExpressHandler`.

JavaScript truthiness is modelled explicitly where the source relies
on it: an `Option String` prop is truthy when it is `some s` with
`s` nonempty, an `Option Nat` numeric prop is truthy when it is
`some n` with `n` nonzero.
-/

/-- JSON values, as produced by the engine's structured responses. -/
inductive JsonVal where
  | jnull
  | jbool (b : Bool)
  | jnum (n : Int)
  | jstr (s : String)
  | jobj (fields : List (String × JsonVal))

/-- The response body finally handed to the transport collaborator. -/
inductive ResBody where
  /-- nothing sent yet / `res.end()` with no body -/
  | empty
  /-- `res.type(ct).send(s)` -/
  | textBody (contentType : String) (content : String)
  /-- `res.send(String(x))` for a primitive output -/
  | rawBody (content : String)
  /-- `res.json(j)` -/
  | jsonBody (j : JsonVal)
  /-- `res.redirect(status, loc)` -/
  | redirectBody (location : String)

/-- Model of the transport response object: accumulated headers, the
status, the body, and whether a response has already been sent
(`res.headersSent`).  A fresh response has status 200, no headers,
empty body and `headersSent = false`. -/
structure ResState where
  headersSent : Bool
  headers : List (String × String)
  status : Nat
  body : ResBody

/-- The fresh response object the transport hands to each handler. -/
def freshRes : ResState := { headersSent := false, headers := [], status := 200, body := .empty }

/-- `res.setHeader(h, v)`: replace the header if present, else append. -/
def upsertHeader : List (String × String) → String → String → List (String × String)
  | [], h, v => [(h, v)]
  | (h0, v0) :: rest, h, v =>
      if h0 = h then (h0, v) :: rest else (h0, v0) :: upsertHeader rest h v

/-- Look a header up by exact name. -/
def lookupHeader (hs : List (String × String)) (h : String) : Option String :=
  (hs.find? (fun x => x.1 == h)).map Prod.snd

/-- `res.setHeader(h, v)` on the response state. -/
def setHeaderRes (res : ResState) (h v : String) : ResState :=
  { res with headers := upsertHeader res.headers h v }

/-- `res.status(n)` (chainable, does not send). -/
def applyStatus (res : ResState) (n : Nat) : ResState :=
  { res with status := n }

/-- `res.json(j)`: send a JSON body. -/
def resJson (res : ResState) (j : JsonVal) : ResState :=
  { res with body := .jsonBody j, headersSent := true }

/-- `res.type(ct).send(s)`: send a typed text body. -/
def resSendText (res : ResState) (ct s : String) : ResState :=
  { res with body := .textBody ct s, headersSent := true }

/-- `res.send(String(x))`: send a primitive serialized to text. -/
def resSendRaw (res : ResState) (s : String) : ResState :=
  { res with body := .rawBody s, headersSent := true }

/-- `res.end()`: finish the response with no body. -/
def resEnd (res : ResState) : ResState :=
  { res with body := .empty, headersSent := true }

/-- `res.redirect(n, loc)`. -/
def resRedirect (res : ResState) (n : Nat) (loc : String) : ResState :=
  { res with status := n, body := .redirectBody loc, headersSent := true }

/-- Props of a `Response` node, as built by the `Response` builder:
`json`, `status`, `text`, `html`, `headers`, `redirect`, each optional. -/
structure RespProps where
  json : Option JsonVal
  status : Option Nat
  text : Option String
  html : Option String
  headers : Option (List (String × String))
  redirect : Option String

/-- A handler/middleware result, classified the way the source's
`sendResponseFromOutput` discriminates it: a JS-falsy value, a
`Response` element, a non-`Response` object, or a truthy primitive
(whose `String(·)` serialization is the carried string). -/
inductive OutVal where
  | falsy
  | respEl (p : RespProps)
  | plainObj
  | prim (s : String)

/-- JS truthiness of an optional numeric prop (`0` is falsy). -/
def natTruthy : Option Nat → Bool
  | some n => n ≠ 0
  | none => false

/-- JS truthiness of an optional string prop (`""` is falsy). -/
def strTruthy : Option String → Bool
  | some s => s ≠ ""
  | none => false

/-- `if (status) res.status(status);` -/
def maybeStatus (res : ResState) (status : Option Nat) : ResState :=
  if natTruthy status then applyStatus res (status.getD 0) else res

/-- `{ error: msg }` as a JSON body. -/
def errJson (msg : String) : JsonVal :=
  .jobj [("error", .jstr msg)]

/-- The `Response`-element branch of `sendResponseFromOutput`: set every
provided header, then run the first matching branch among redirect /
text / html / json / status-only / default-200. -/
def respElSend (res : ResState) (p : RespProps) : ResState :=
  let res1 := match p.headers with
    | some hs => hs.foldl (fun r hv => setHeaderRes r hv.1 hv.2) res
    | none => res
  if strTruthy p.redirect then
    match p.status with
    | some n => if n ≠ 0 then resRedirect res1 n (p.redirect.getD "")
                else resRedirect res1 302 (p.redirect.getD "")
    | none => resRedirect res1 302 (p.redirect.getD "")
  else if p.text.isSome then
    resSendText (maybeStatus res1 p.status) "text/plain" (p.text.getD "")
  else if p.html.isSome then
    resSendText (maybeStatus res1 p.status) "text/html" (p.html.getD "")
  else if p.json.isSome then
    resJson (maybeStatus res1 p.status) (p.json.getD .jnull)
  else if natTruthy p.status then
    resEnd (applyStatus res1 (p.status.getD 0))
  else
    resEnd (applyStatus res1 200)

/-- The source's unified output normalizer `sendResponseFromOutput`. -/
def sendResponseFromOutput (res : ResState) (out : OutVal) : ResState :=
  match out with
  | .falsy =>
      if res.headersSent then res
      else resJson (applyStatus res 500) (errJson "No response generated")
  | .respEl p => respElSend res p
  | .plainObj =>
      if res.headersSent then res
      else resJson (applyStatus res 500) (errJson "Invalid response format")
  | .prim s => resSendRaw res s

/-- Modelled from the spec's words (for comparison with the source's
`respElSend`): apply, in order, (1) set every provided header; (2) if
`redirect` is set, redirect with the numeric status if provided, else
302; (3) else if `text` is set, set status if provided and send as
`text/plain`; (4) else if `html` is set, analogous; (5) else if `json`
is set, set status if provided and send as JSON; (6) else if only
`status` is set, end with that status and no body; (7) else status 200
with empty body. -/
def respElSpec (res : ResState) (p : RespProps) : ResState :=
  let res1 := match p.headers with
    | some hs => hs.foldl (fun r hv => setHeaderRes r hv.1 hv.2) res
    | none => res
  match p.redirect with
  | some loc =>
      (match p.status with
       | some n => resRedirect res1 n loc
       | none => resRedirect res1 302 loc)
  | none =>
    match p.text with
    | some t =>
        resSendText (match p.status with | some n => applyStatus res1 n | none => res1)
          "text/plain" t
    | none =>
      match p.html with
      | some t =>
          resSendText (match p.status with | some n => applyStatus res1 n | none => res1)
            "text/html" t
      | none =>
        match p.json with
        | some j =>
            resJson (match p.status with | some n => applyStatus res1 n | none => res1) j
        | none =>
          match p.status with
          | some n => resEnd (applyStatus res1 n)
          | none => resEnd (applyStatus res1 200)

/-! ## The declarative node tree and the compiler `processElement`

The element tree is polymorphic in the middleware type `μ`, the
handler type `η` and the schema type `σ` (the source treats all three
as opaque function / schema objects).  A prop that may be a single
value or an array in JS is normalized to a `List`; absent props are
`none` / `[]`.  An array element is `seq`; a function component is
`fnComp` carrying the element it returns; an unknown object element
with children is `container`. -/

/-- Props of a `Route` node. -/
structure RouteProps (μ η σ : Type) where
  path : Option String
  method : Option String
  middleware : List μ
  children : Option η
  query : Option σ
  body : Option σ

/-- The node tree fed to `serve` / `processElement`. -/
inductive Element (μ η σ : Type) where
  | nullish
  | fnComp (result : Element μ η σ)
  | seq (els : List (Element μ η σ))
  | app (port : Option Nat) (cors : Option Bool) (middleware : List μ)
        (children : List (Element μ η σ))
  | group (pre : Option String) (middleware : List μ)
          (children : List (Element μ η σ))
  | route (props : RouteProps μ η σ)
  | mwNode (use : List μ)
  | container (children : List (Element μ η σ))

/-- One entry of the compiled route table (the source's `routes` array):
method lower-cased at push time, path prefix-joined. -/
structure RouteDef (μ η σ : Type) where
  method : String
  path : String
  handler : η
  middlewares : List μ
  querySchema : Option σ
  bodySchema : Option σ

/-- The app configuration extracted from the `App` node. -/
structure AppCfg where
  port : Option Nat
  cors : Option Bool

/-- Compiler state: the route table and the app config. -/
structure CompileSt (μ η σ : Type) where
  routes : List (RouteDef μ η σ)
  config : AppCfg

/-- The empty state `serve` resets to before each compile. -/
def initSt {μ η σ : Type} : CompileSt μ η σ := { routes := [], config := { port := none, cors := none } }

/-- Is an element a `Middleware` node (the check of the RouteGroup
two-pass scan)? -/
def isMwNode {μ η σ : Type} : Element μ η σ → Bool
  | .mwNode _ => true
  | _ => false

/-- Pass 1 of the RouteGroup scan: collect the `use` middlewares of all
direct `Middleware` children, in child order. -/
def collectMws {μ η σ : Type} (children : List (Element μ η σ)) : List μ :=
  children.foldl (fun acc c => match c with | .mwNode use => acc ++ use | _ => acc) []

/-- `props.prefix ? pathPrefix + props.prefix : pathPrefix` -/
def groupPfxOf (pfx : String) (pre : Option String) : String :=
  if strTruthy pre then pfx ++ pre.getD "" else pfx

/-- `String.toUpperCase`, written at the character level so closed
instances evaluate: upper-case every character. -/
def upperStr (s : String) : String := String.mk (s.data.map Char.toUpper)

/-- `String.toLowerCase`, analogous. -/
def lowerStr (s : String) : String := String.mk (s.data.map Char.toLower)

/-- Methods that may carry a body schema (`bodyAllowedMethods`). -/
def bodyAllowedMethods : List String := ["POST", "PUT", "PATCH", "DELETE"]

/-- The `Route` case of `processElement`: skip silently unless both
`path` and `children` are truthy; then fail on a missing/empty
`method`; then fail when a body schema is declared for a method
outside `bodyAllowedMethods`; otherwise push one `RouteDef`. -/
def processRoute {μ η σ : Type} (rp : RouteProps μ η σ) (pfx : String) (mws : List μ)
    (st : CompileSt μ η σ) : Except String (CompileSt μ η σ) :=
  match rp.path, rp.children with
  | some p, some h =>
      if p = "" then .ok st
      else
        match rp.method with
        | none => .error ("Route with path \"" ++ p ++ "\" is missing a required \"method\" property")
        | some m =>
            if m = "" then
              .error ("Route with path \"" ++ p ++ "\" is missing a required \"method\" property")
            else
              let fullPath := pfx ++ p
              if rp.body.isSome && !(bodyAllowedMethods.contains (upperStr m)) then
                .error ("Route " ++ upperStr m ++ " " ++ fullPath ++ " cannot declare a body schema.")
              else
                .ok { st with routes := st.routes ++
                      [{ method := lowerStr m, path := fullPath, handler := h,
                         middlewares := mws ++ rp.middleware,
                         querySchema := rp.query, bodySchema := rp.body }] }
  | _, _ => .ok st

mutual

/-- The source's `processElement(element, pathPrefix, middlewares)`,
with the mutated globals (`routes`, `appConfig`) made an explicit
state and a thrown `Error` modelled as `Except.error`. -/
def processElement {μ η σ : Type} (e : Element μ η σ) (pfx : String) (mws : List μ)
    (st : CompileSt μ η σ) : Except String (CompileSt μ η σ) :=
  match e with
  | .nullish => .ok st
  | .fnComp result => processElement result pfx mws st
  | .seq els => processList els pfx mws st
  | .app port cors appMws children =>
      let cfg : AppCfg :=
        { port := some (match port with | some n => if n = 0 then 9000 else n | none => 9000),
          cors := cors }
      processList children pfx (mws ++ appMws) { st with config := cfg }
  | .group pre groupMws children =>
      let groupPfx := groupPfxOf pfx pre
      let allGroupMws := mws ++ groupMws ++ collectMws children
      processGroupChildren children groupPfx allGroupMws st
  | .route rp => processRoute rp pfx mws st
  | .mwNode _ => .ok st
  | .container children => processList children pfx mws st

/-- Folding `processElement` over a child list (the `forEach` calls). -/
def processList {μ η σ : Type} (els : List (Element μ η σ)) (pfx : String) (mws : List μ)
    (st : CompileSt μ η σ) : Except String (CompileSt μ η σ) :=
  match els with
  | [] => .ok st
  | e :: rest =>
      match processElement e pfx mws st with
      | .error msg => .error msg
      | .ok st1 => processList rest pfx mws st1

/-- Pass 2 of the RouteGroup scan: process every non-`Middleware` child. -/
def processGroupChildren {μ η σ : Type} (els : List (Element μ η σ)) (pfx : String)
    (mws : List μ) (st : CompileSt μ η σ) : Except String (CompileSt μ η σ) :=
  match els with
  | [] => .ok st
  | e :: rest =>
      if isMwNode e then processGroupChildren rest pfx mws st
      else
        match processElement e pfx mws st with
        | .error msg => .error msg
        | .ok st1 => processGroupChildren rest pfx mws st1

end

/-- `serve`'s compile phase: reset state, walk the tree. -/
def compileTree {μ η σ : Type} (e : Element μ η σ) : Except String (CompileSt μ η σ) :=
  processElement e "" [] initSt

/-- `serve`'s port selection: `appConfig.port || 6969`. -/
def servePort {μ η σ : Type} (e : Element μ η σ) : Except String Nat :=
  (compileTree e).map (fun st =>
    match st.config.port with
    | some n => if n = 0 then 6969 else n
    | none => 6969)

/-! ## Enclosure of a Route inside the tree

`RouteIn e ps ms rp` says: the tree `e` contains a `Route` node with
props `rp`, whose enclosing `RouteGroup` truthy prefixes, outermost
first, are `ps`, and whose inherited middleware chain (App-level
middlewares and each enclosing RouteGroup's middlewares — the group's
`middleware` prop followed by its collected `Middleware` children —
outer-to-inner) is `ms`. -/

/-- The prefix a RouteGroup contributes: nothing when absent or empty. -/
def preList (pre : Option String) : List String :=
  if strTruthy pre then [pre.getD ""] else []

/-- Concatenation of a list of path pieces. -/
def strJoin : List String → String
  | [] => ""
  | s :: rest => s ++ strJoin rest

inductive RouteIn {μ η σ : Type} :
    Element μ η σ → List String → List μ → RouteProps μ η σ → Prop where
  | here (rp : RouteProps μ η σ) : RouteIn (.route rp) [] [] rp
  | inFn {e : Element μ η σ} {ps ms rp} :
      RouteIn e ps ms rp → RouteIn (.fnComp e) ps ms rp
  | inSeq {els : List (Element μ η σ)} {e ps ms rp} :
      e ∈ els → RouteIn e ps ms rp → RouteIn (.seq els) ps ms rp
  | inApp {port cors appMws} {children : List (Element μ η σ)} {e ps ms rp} :
      e ∈ children → RouteIn e ps ms rp →
      RouteIn (.app port cors appMws children) ps (appMws ++ ms) rp
  | inGroup {pre groupMws} {children : List (Element μ η σ)} {e ps ms rp} :
      e ∈ children → RouteIn e ps ms rp →
      RouteIn (.group pre groupMws children) (preList pre ++ ps)
        ((groupMws ++ collectMws children) ++ ms) rp
  | inContainer {children : List (Element μ η σ)} {e ps ms rp} :
      e ∈ children → RouteIn e ps ms rp → RouteIn (.container children) ps ms rp

/-- A compiled route-table entry `r` explained by the tree: it comes
from a Route node at some enclosure, its `path` is the accumulated
prefix concatenation and its `middlewares` the accumulated chain. -/
def EmittedFrom {μ η σ : Type} (e : Element μ η σ) (pfx : String) (mws : List μ)
    (r : RouteDef μ η σ) : Prop :=
  ∃ ps ems rp p m h, RouteIn e ps ems rp ∧
    rp.path = some p ∧ p ≠ "" ∧ rp.children = some h ∧ rp.method = some m ∧ m ≠ "" ∧
    r.path = pfx ++ strJoin ps ++ p ∧
    r.middlewares = mws ++ ems ++ rp.middleware ∧
    r.handler = h ∧ r.method = lowerStr m ∧
    r.querySchema = rp.query ∧ r.bodySchema = rp.body

/-- Trees containing no `App` node (used for the port-default analysis). -/
inductive AppFree {μ η σ : Type} : Element μ η σ → Prop where
  | nullish : AppFree .nullish
  | fnComp {e : Element μ η σ} : AppFree e → AppFree (.fnComp e)
  | seq {els : List (Element μ η σ)} : (∀ e ∈ els, AppFree e) → AppFree (.seq els)
  | group {pre groupMws} {children : List (Element μ η σ)} :
      (∀ e ∈ children, AppFree e) → AppFree (.group pre groupMws children)
  | route {rp : RouteProps μ η σ} : AppFree (.route rp)
  | mwNode {use : List μ} : AppFree (.mwNode use)
  | container {children : List (Element μ η σ)} :
      (∀ e ∈ children, AppFree e) → AppFree (.container children)

/-! ## Registration and dispatch (405 / wildcard / 404) -/

/-- The HTTP methods `serve`'s registrar supports. -/
def supportedMethods : List String :=
  ["get", "post", "put", "patch", "delete", "options", "head", "all"]

/-- One step of building the path → allowed-methods index: append the
upper-cased method to the path's list unless already present. -/
def addMethod : List (String × List String) → String → String → List (String × List String)
  | [], p, m => [(p, [m])]
  | (q, ms) :: rest, p, m =>
      if q = p then (q, if ms.contains m then ms else ms ++ [m]) :: rest
      else (q, ms) :: addMethod rest p m

/-- The source's `methodsByPath` index, built from the regular routes
in registration order. -/
def methodsByPath {μ η σ : Type} (regular : List (RouteDef μ η σ)) :
    List (String × List String) :=
  regular.foldl (fun acc r => addMethod acc r.path (upperStr r.method)) []

/-- Exact-key lookup in an association list. -/
def lookupAssoc {α : Type} (m : List (String × α)) (k : String) : Option α :=
  (m.find? (fun x => x.1 == k)).map Prod.snd

/-- The 405 response the catch-all pass sends: `Allow` header joined
with a comma and space, status 405, structured JSON body. -/
def res405 (res : ResState) (m p : String) (ms : List String) : ResState :=
  resJson (applyStatus (setHeaderRes res "Allow" (String.intercalate ", " ms)) 405)
    (.jobj [("error", .jstr "Method Not Allowed"),
            ("message", .jstr ("Method " ++ m ++ " is not allowed for path " ++ p)),
            ("path", .jstr p),
            ("method", .jstr m)])

/-- The default 404 response when no wildcard route exists. -/
def res404 (res : ResState) (m p : String) : ResState :=
  resJson (applyStatus res 404)
    (.jobj [("error", .jstr "Not Found"),
            ("message", .jstr ("Route " ++ m ++ " " ++ p ++ " not found")),
            ("path", .jstr p),
            ("method", .jstr m)])

/-- Outcome of resolving a request against the registered handlers. -/
inductive DispatchResult (μ η σ : Type) where
  /-- a method-specific registered handler matched -/
  | handled (r : RouteDef μ η σ)
  /-- a wildcard handler matched -/
  | wildcardHandled (r : RouteDef μ η σ)
  /-- the engine answered directly (405 or 404) -/
  | responded (res : ResState)
  /-- wildcard routes exist but none matched: falls to the transport -/
  | unhandled

/-- Does a registered regular route match the incoming method+path?
Paths are matched literally; the registrar only registers supported
methods; `all` matches every method. -/
def routeMatches {μ η σ : Type} (r : RouteDef μ η σ) (reqMethod reqPath : String) : Bool :=
  supportedMethods.contains r.method && r.path == reqPath &&
    (r.method == "all" || r.method == lowerStr reqMethod)

/-- Does a wildcard route's handler activate for this method? -/
def wildMatches {μ η σ : Type} (r : RouteDef μ η σ) (reqMethod : String) : Bool :=
  r.method == "all" || r.method == lowerStr reqMethod

/-- The registration order of `serve`, as a resolution function: first
the method-specific handlers for regular routes, then the 405
catch-all (paths with some registered method but not this one), then
the wildcard handlers, then the default 404 (only registered when no
wildcard route exists). -/
def dispatch {μ η σ : Type} (rs : List (RouteDef μ η σ)) (reqMethod reqPath : String)
    (res : ResState) : DispatchResult μ η σ :=
  let regular := rs.filter (fun r => !(r.path == "*"))
  let wild := rs.filter (fun r => r.path == "*")
  let afterCatchAll : DispatchResult μ η σ :=
    match wild.find? (fun r => wildMatches r reqMethod) with
    | some r => .wildcardHandled r
    | none =>
        if wild.isEmpty then .responded (res404 res reqMethod reqPath)
        else .unhandled
  match regular.find? (fun r => routeMatches r reqMethod reqPath) with
  | some r => .handled r
  | none =>
      match lookupAssoc (methodsByPath regular) reqPath with
      | some ms =>
          if !(ms.contains reqMethod) then .responded (res405 res reqMethod reqPath ms)
          else afterCatchAll
      | none => afterCatchAll

/-! ## The middleware chain runner -/

/-- The source's `executeNextMiddleware` loop, abstracted over how a
single middleware consumes its continuation: when middlewares remain,
the current one runs with the rest of the chain as its continuation;
when none remain, the handler runs. -/
def executeNextMiddleware {μ ρ : Type} (step : μ → (Unit → ρ) → ρ) (handler : Unit → ρ) :
    List μ → ρ
  | [] => handler ()
  | m :: rest => step m (fun _ => executeNextMiddleware step handler rest)

/-- Observable behavior of one middleware: either invoke the
continuation and propagate its result, or return a value directly
without invoking it. -/
inductive MwBeh (β : Type) where
  | pass
  | halt (v : β)

/-- Interpretation of an identified middleware over traced results:
`pass` invokes the continuation and prepends its own id to the trace;
`halt v` returns `([id], v)` without invoking the continuation. -/
def traceStep {β : Type} : Nat × MwBeh β → (Unit → List Nat × β) → List Nat × β
  | (i, .pass), next => ((i :: (next ()).1), (next ()).2)
  | (i, .halt v), _ => ([i], v)

/-! ## Ambient context store and the request wrapper

The per-request scope models the source's `routeContext` (structured
fields `req`, `res`, `params`, `query`, `body` plus the
`middlewareContext` map); the process-wide fallback models
`globalContext`.  Context values are an opaque type `ν`. -/

/-- `Map.set`: update the key in place if present, else append. -/
def upsertAssoc {α : Type} : List (String × α) → String → α → List (String × α)
  | [], k, v => [(k, v)]
  | (k0, v0) :: rest, k, v =>
      if k0 = k then (k0, v) :: rest else (k0, v0) :: upsertAssoc rest k v

/-- The source's `routeContext` value. -/
structure Scope (ν : Type) where
  req : ν
  res : ν
  params : ν
  query : ν
  body : ν
  middlewareContext : List (String × ν)

/-- The request fields a new scope is seeded from. -/
structure ReqInfo (ν : Type) where
  reqObj : ν
  resObj : ν
  params : ν
  query : ν
  body : ν
  path : ν
  method : ν
  headers : ν

/-- The scope `createExpressHandler` builds before running the chain:
structured fields from the request, and the `middlewareContext`
seeded with `req`, `res`, `params`, `path`, `method`, `headers`,
`query`, `body` in the source's insertion order. -/
def seedScope {ν : Type} (rq : ReqInfo ν) : Scope ν :=
  { req := rq.reqObj, res := rq.resObj, params := rq.params, query := rq.query, body := rq.body,
    middlewareContext :=
      [("req", rq.reqObj), ("res", rq.resObj), ("params", rq.params), ("path", rq.path),
       ("method", rq.method), ("headers", rq.headers), ("query", rq.query), ("body", rq.body)] }

/-- The ambient state a context operation acts on: the active scope
(`none` when no request is in flight) and the process-wide fallback. -/
def CtxSt (ν : Type) : Type := Option (Scope ν) × List (String × ν)

/-- The source's `useSetContext`: write into the active scope's map if
one exists (also syncing the structured `body` / `query` / `params`
field when the key is reserved), else into the global context. -/
def useSetContext {ν : Type} (k : String) (v : ν) : CtxSt ν → CtxSt ν
  | (some sc, g) =>
      let sc1 := { sc with middlewareContext := upsertAssoc sc.middlewareContext k v }
      let sc2 :=
        if k = "body" then { sc1 with body := v }
        else if k = "query" then { sc1 with query := v }
        else if k = "params" then { sc1 with params := v }
        else sc1
      (some sc2, g)
  | (none, g) => (none, upsertAssoc g k v)

/-- The source's key-based `useContext`: the active scope's map first,
falling back to the global context; only the global context when no
scope is active. -/
def useContextKey {ν : Type} (k : String) : CtxSt ν → Option ν
  | (some sc, g) =>
      match lookupAssoc sc.middlewareContext k with
      | some v => some v
      | none => lookupAssoc g k
  | (none, g) => lookupAssoc g k

/-- A middleware or handler body, deeply embedded by the operations it
may perform: return a value, throw, write the ambient context, act on
the response object, or invoke its continuation (propagating the
continuation's result). -/
inductive Prog (ν : Type) where
  | ret (v : OutVal)
  | throwErr (msg : String)
  | setCtx (k : String) (v : ν) (rest : Prog ν)
  | resEffect (f : ResState → ResState) (rest : Prog ν)
  | callNext

/-- Execution state threaded through a middleware chain. -/
structure ExecSt (ν : Type) where
  scope : Option (Scope ν)
  global : List (String × ν)
  res : ResState

/-- Apply `useSetContext` inside the execution state. -/
def execSetCtx {ν : Type} (k : String) (v : ν) (s : ExecSt ν) : ExecSt ν :=
  let c := useSetContext k v (s.scope, s.global)
  { s with scope := c.1, global := c.2 }

/-- Run one middleware body: `callNext` invokes the continuation, a
thrown error aborts with the state at the throw point. -/
def runProg {ν : Type} :
    Prog ν → (Unit → ExecSt ν → Except (String × ExecSt ν) (OutVal × ExecSt ν)) →
    ExecSt ν → Except (String × ExecSt ν) (OutVal × ExecSt ν)
  | .ret v, _, s => .ok (v, s)
  | .throwErr msg, _, s => .error (msg, s)
  | .setCtx k v rest, next, s => runProg rest next (execSetCtx k v s)
  | .resEffect f rest, next, s => runProg rest next { s with res := f s.res }
  | .callNext, next, s => next () s

/-- The handler runs with no continuation of its own. -/
def handlerCont {ν : Type} (handler : Prog ν) :
    Unit → ExecSt ν → Except (String × ExecSt ν) (OutVal × ExecSt ν) :=
  fun _ => runProg handler (fun _ s => .ok (OutVal.falsy, s))

/-- The request wrapper the source's `createExpressHandler` returns:
seed the scope (including the reserved schema keys when present), run
the middleware chain then the handler, normalize the output; on a
thrown error answer a generic 500 only if nothing was sent; in all
cases clear the active scope (the `finally`).  Returns the final
response, the final active scope, and the final global context.
`seedWithSchemas` is the scope seeded at request start, including the
reserved `_bodySchema` / `_querySchema` keys when declared. -/
def seedWithSchemas {ν : Type} (bodySchema querySchema : Option ν) (rq : ReqInfo ν) : Scope ν :=
  let s0 := seedScope rq
  let s1 := match bodySchema with
    | some b => { s0 with middlewareContext := upsertAssoc s0.middlewareContext "_bodySchema" b }
    | none => s0
  match querySchema with
  | some q => { s1 with middlewareContext := upsertAssoc s1.middlewareContext "_querySchema" q }
  | none => s1

def createExpressHandler {ν : Type} (mws : List (Prog ν)) (handler : Prog ν)
    (bodySchema querySchema : Option ν) (rq : ReqInfo ν)
    (g : List (String × ν)) (res : ResState) :
    ResState × Option (Scope ν) × List (String × ν) :=
  match executeNextMiddleware runProg (handlerCont handler) mws
        { scope := some (seedWithSchemas bodySchema querySchema rq), global := g, res := res } with
  | .ok (out, s) => (sendResponseFromOutput s.res out, none, s.global)
  | .error (_, s) =>
      ((if s.res.headersSent then s.res
        else resJson (applyStatus s.res 500) (errJson "Internal server error")),
       none, s.global)

/-! ## Concrete fixtures for closed instances -/

/-- App middleware `0`, group middleware `1`, route middleware `2`, all
invoking their continuation. -/
def exChainTree : Element (Nat × MwBeh String) Unit Unit :=
  .app none none [(0, MwBeh.pass)]
    [.group (some "/g") [(1, MwBeh.pass)]
      [.route { path := some "/r", method := some "GET",
                middleware := [(2, MwBeh.pass)], children := some (),
                query := none, body := none }]]

/-- The single route `exChainTree` compiles to. -/
def exChainRoute : RouteDef (Nat × MwBeh String) Unit Unit :=
  { method := lowerStr "GET", path := "/g/r", handler := (),
    middlewares := [(0, MwBeh.pass), (1, MwBeh.pass), (2, MwBeh.pass)],
    querySchema := none, bodySchema := none }

/-- Same shape with the group middleware short-circuiting. -/
def exHaltTree : Element (Nat × MwBeh String) Unit Unit :=
  .app none none [(0, MwBeh.pass)]
    [.group (some "/g") [(1, MwBeh.halt "stopped")]
      [.route { path := some "/r", method := some "GET",
                middleware := [(2, MwBeh.pass)], children := some (),
                query := none, body := none }]]

/-- The single route `exHaltTree` compiles to. -/
def exHaltRoute : RouteDef (Nat × MwBeh String) Unit Unit :=
  { method := lowerStr "GET", path := "/g/r", handler := (),
    middlewares := [(0, MwBeh.pass), (1, MwBeh.halt "stopped"), (2, MwBeh.pass)],
    querySchema := none, bodySchema := none }

/-- Nested groups for the path-concatenation instance. -/
def exPathTree : Element Unit Unit Unit :=
  .app none none []
    [.group (some "/api") []
      [.group (some "/v1") []
        [.route { path := some "/users", method := some "GET", middleware := [],
                  children := some (), query := none, body := none }]]]

/-- Route table for the 405 instance: one GET route at `/a`. -/
def exRoutes405 : List (RouteDef Unit Unit Unit) :=
  [{ method := "get", path := "/a", handler := (), middlewares := [],
     querySchema := none, bodySchema := none }]

/-- A unit request for wrapper instances. -/
def exReq : ReqInfo Unit :=
  { reqObj := (), resObj := (), params := (), query := (), body := (),
    path := (), method := (), headers := () }

/-- A numbered request for the context instances. -/
def exReqN : ReqInfo Nat :=
  { reqObj := 1, resObj := 2, params := 3, query := 4, body := 5,
    path := 6, method := 7, headers := 8 }

/-! ## Lemmas -/

theorem strJoin_append (a b : List String) : strJoin (a ++ b) = strJoin a ++ strJoin b := by
  induction a with
  | nil => simp [strJoin, String.empty_append]
  | cons s rest ih => simp [strJoin, ih, String.append_assoc]

theorem groupPfxOf_eq (pfx : String) (pre : Option String) :
    groupPfxOf pfx pre = pfx ++ strJoin (preList pre) := by
  cases pre with
  | none => simp [groupPfxOf, preList, strTruthy, strJoin, String.append_empty]
  | some s =>
      by_cases hs : s = ""
      · simp [groupPfxOf, preList, strTruthy, hs, strJoin, String.append_empty]
      · simp [groupPfxOf, preList, strTruthy, hs, strJoin, String.append_empty]

theorem emittedFrom_fnComp {μ η σ : Type} {e : Element μ η σ} {pfx mws r} :
    EmittedFrom e pfx mws r → EmittedFrom (.fnComp e) pfx mws r := by
  rintro ⟨ps, ems, rp, p, m, h, hin, hrest⟩
  exact ⟨ps, ems, rp, p, m, h, RouteIn.inFn hin, hrest⟩

theorem emittedFrom_seq {μ η σ : Type} {els : List (Element μ η σ)} {e pfx mws r}
    (hmem : e ∈ els) : EmittedFrom e pfx mws r → EmittedFrom (.seq els) pfx mws r := by
  rintro ⟨ps, ems, rp, p, m, h, hin, hrest⟩
  exact ⟨ps, ems, rp, p, m, h, RouteIn.inSeq hmem hin, hrest⟩

theorem emittedFrom_container {μ η σ : Type} {els : List (Element μ η σ)} {e pfx mws r}
    (hmem : e ∈ els) : EmittedFrom e pfx mws r → EmittedFrom (.container els) pfx mws r := by
  rintro ⟨ps, ems, rp, p, m, h, hin, hrest⟩
  exact ⟨ps, ems, rp, p, m, h, RouteIn.inContainer hmem hin, hrest⟩

theorem emittedFrom_app {μ η σ : Type} {children : List (Element μ η σ)}
    {e pfx mws appMws port cors r} (hmem : e ∈ children) :
    EmittedFrom e pfx (mws ++ appMws) r →
    EmittedFrom (.app port cors appMws children) pfx mws r := by
  rintro ⟨ps, ems, rp, p, m, h, hin, h1, h2, h3, h4, h5, h6, h7, h8⟩
  refine ⟨ps, appMws ++ ems, rp, p, m, h, RouteIn.inApp hmem hin, h1, h2, h3, h4, h5, h6, ?_, h8⟩
  simp only [h7, List.append_assoc]

theorem emittedFrom_group {μ η σ : Type} {children : List (Element μ η σ)}
    {e pfx mws groupMws pre r} (hmem : e ∈ children) :
    EmittedFrom e (groupPfxOf pfx pre) (mws ++ groupMws ++ collectMws children) r →
    EmittedFrom (.group pre groupMws children) pfx mws r := by
  rintro ⟨ps, ems, rp, p, m, h, hin, h1, h2, h3, h4, h5, h6, h7, h8⟩
  refine ⟨preList pre ++ ps, (groupMws ++ collectMws children) ++ ems, rp, p, m, h,
    RouteIn.inGroup hmem hin, h1, h2, h3, h4, h5, ?_, ?_, h8⟩
  · rw [h6, groupPfxOf_eq, strJoin_append]
    simp [String.append_assoc]
  · simp only [h7, List.append_assoc]

theorem processRoute_ok_cases {μ η σ : Type} {rp : RouteProps μ η σ} {pfx : String}
    {mws : List μ} {st st' : CompileSt μ η σ}
    (hok : processRoute rp pfx mws st = .ok st') :
    ((rp.path = none ∨ rp.path = some "" ∨ rp.children = none) ∧ st' = st) ∨
    ∃ p m h, rp.path = some p ∧ p ≠ "" ∧ rp.children = some h ∧
      rp.method = some m ∧ m ≠ "" ∧
      (rp.body.isSome && !(bodyAllowedMethods.contains (upperStr m))) = false ∧
      st' = { st with routes := st.routes ++
        [{ method := lowerStr m, path := pfx ++ p, handler := h,
           middlewares := mws ++ rp.middleware,
           querySchema := rp.query, bodySchema := rp.body }] } := by
  unfold processRoute at hok
  split at hok
  · rename_i p hh hp hc
    split at hok
    · rename_i hpe
      exact Or.inl ⟨Or.inr (Or.inl (hpe ▸ hp)), (Except.ok.inj hok).symm⟩
    · rename_i hpe
      split at hok
      · exact Except.noConfusion hok
      · rename_i m hm
        split at hok
        · exact Except.noConfusion hok
        · rename_i hme
          split at hok
          · exact Except.noConfusion hok
          · rename_i hb
            exact Or.inr ⟨p, m, hh, hp, hpe, hc, hm, hme,
              Bool.eq_false_iff.mpr hb, (Except.ok.inj hok).symm⟩
  · rename_i hnm
    refine Or.inl ⟨?_, (Except.ok.inj hok).symm⟩
    rcases hpp : rp.path with _ | p
    · exact Or.inl rfl
    · rcases hcc : rp.children with _ | hh
      · exact Or.inr (Or.inr rfl)
      · exact (hnm p hh hpp hcc).elim

theorem processElement_spec_aux {μ η σ : Type} (n : Nat) :
    (∀ (e : Element μ η σ) (pfx : String) (mws : List μ) (st st' : CompileSt μ η σ),
       sizeOf e ≤ n → processElement e pfx mws st = .ok st' →
       ∀ r ∈ st'.routes, r ∈ st.routes ∨ EmittedFrom e pfx mws r) ∧
    (∀ (els : List (Element μ η σ)) (pfx : String) (mws : List μ) (st st' : CompileSt μ η σ),
       sizeOf els ≤ n → processList els pfx mws st = .ok st' →
       ∀ r ∈ st'.routes, r ∈ st.routes ∨ ∃ e ∈ els, EmittedFrom e pfx mws r) ∧
    (∀ (els : List (Element μ η σ)) (pfx : String) (mws : List μ) (st st' : CompileSt μ η σ),
       sizeOf els ≤ n → processGroupChildren els pfx mws st = .ok st' →
       ∀ r ∈ st'.routes, r ∈ st.routes ∨ ∃ e ∈ els, EmittedFrom e pfx mws r) := by
  induction n using Nat.strong_induction_on with
  | _ n ih =>
  refine ⟨?_, ?_, ?_⟩
  · intro e pfx mws st st' hsz hok r hr
    cases e with
    | nullish =>
        simp only [processElement, Except.ok.injEq] at hok
        subst hok; exact Or.inl hr
    | fnComp e1 =>
        simp only [processElement] at hok
        have hlt : sizeOf e1 < n := by simp at hsz; omega
        rcases (ih _ hlt).1 e1 pfx mws st st' (le_refl _) hok r hr with hold | hemit
        · exact Or.inl hold
        · exact Or.inr (emittedFrom_fnComp hemit)
    | seq els =>
        simp only [processElement] at hok
        have hlt : sizeOf els < n := by simp at hsz; omega
        rcases (ih _ hlt).2.1 els pfx mws st st' (le_refl _) hok r hr with hold | ⟨e1, hm1, he1⟩
        · exact Or.inl hold
        · exact Or.inr (emittedFrom_seq hm1 he1)
    | app port cors appMws children =>
        simp only [processElement] at hok
        have hlt : sizeOf children < n := by simp at hsz; omega
        rcases (ih _ hlt).2.1 children pfx (mws ++ appMws) _ st' (le_refl _) hok r hr with
          hold | ⟨e1, hm1, he1⟩
        · exact Or.inl hold
        · exact Or.inr (emittedFrom_app hm1 he1)
    | group pre groupMws children =>
        simp only [processElement] at hok
        have hlt : sizeOf children < n := by simp at hsz; omega
        rcases (ih _ hlt).2.2 children (groupPfxOf pfx pre)
            (mws ++ groupMws ++ collectMws children) st st' (le_refl _) hok r hr with
          hold | ⟨e1, hm1, he1⟩
        · exact Or.inl hold
        · exact Or.inr (emittedFrom_group hm1 he1)
    | route rp =>
        simp only [processElement] at hok
        rcases processRoute_ok_cases hok with ⟨_, heq⟩ | ⟨p, m, hh, hp, hpe, hc, hm, hme, hb, heq⟩
        · subst heq; exact Or.inl hr
        · subst heq
          rcases List.mem_append.mp hr with hold | hnew
          · exact Or.inl hold
          · have hre := List.mem_singleton.mp hnew
            subst hre
            refine Or.inr ⟨[], [], rp, p, m, hh, RouteIn.here rp, hp, hpe, hc, hm, hme, ?_, ?_,
              rfl, rfl, rfl, rfl⟩
            · simp [strJoin, String.append_empty]
            · simp
    | mwNode use =>
        simp only [processElement, Except.ok.injEq] at hok
        subst hok; exact Or.inl hr
    | container children =>
        simp only [processElement] at hok
        have hlt : sizeOf children < n := by simp at hsz; omega
        rcases (ih _ hlt).2.1 children pfx mws st st' (le_refl _) hok r hr with
          hold | ⟨e1, hm1, he1⟩
        · exact Or.inl hold
        · exact Or.inr (emittedFrom_container hm1 he1)
  · intro els pfx mws st st' hsz hok r hr
    cases els with
    | nil =>
        simp only [processList, Except.ok.injEq] at hok
        subst hok; exact Or.inl hr
    | cons e1 rest =>
        simp only [processList] at hok
        cases he1 : processElement e1 pfx mws st with
        | error msg => rw [he1] at hok; simp at hok
        | ok st1 =>
            rw [he1] at hok
            have hlt1 : sizeOf e1 < n := by simp at hsz; omega
            have hltr : sizeOf rest < n := by simp at hsz; omega
            rcases (ih _ hltr).2.1 rest pfx mws st1 st' (le_refl _) hok r hr with
              hold | ⟨e2, hm2, he2⟩
            · rcases (ih _ hlt1).1 e1 pfx mws st st1 (le_refl _) he1 r hold with hold2 | hemit
              · exact Or.inl hold2
              · exact Or.inr ⟨e1, List.mem_cons_self e1 rest, hemit⟩
            · exact Or.inr ⟨e2, List.mem_cons_of_mem _ hm2, he2⟩
  · intro els pfx mws st st' hsz hok r hr
    cases els with
    | nil =>
        simp only [processGroupChildren, Except.ok.injEq] at hok
        subst hok; exact Or.inl hr
    | cons e1 rest =>
        simp only [processGroupChildren] at hok
        have hltr : sizeOf rest < n := by simp at hsz; omega
        by_cases hmw : isMwNode e1 = true
        · rw [if_pos hmw] at hok
          rcases (ih _ hltr).2.2 rest pfx mws st st' (le_refl _) hok r hr with
            hold | ⟨e2, hm2, he2⟩
          · exact Or.inl hold
          · exact Or.inr ⟨e2, List.mem_cons_of_mem _ hm2, he2⟩
        · rw [if_neg hmw] at hok
          cases he1 : processElement e1 pfx mws st with
          | error msg => rw [he1] at hok; simp at hok
          | ok st1 =>
              rw [he1] at hok
              have hlt1 : sizeOf e1 < n := by simp at hsz; omega
              rcases (ih _ hltr).2.2 rest pfx mws st1 st' (le_refl _) hok r hr with
                hold | ⟨e2, hm2, he2⟩
              · rcases (ih _ hlt1).1 e1 pfx mws st st1 (le_refl _) he1 r hold with hold2 | hemit
                · exact Or.inl hold2
                · exact Or.inr ⟨e1, List.mem_cons_self e1 rest, hemit⟩
              · exact Or.inr ⟨e2, List.mem_cons_of_mem _ hm2, he2⟩

theorem compiled_route_emitted {μ η σ : Type} (e : Element μ η σ)
    (st' : CompileSt μ η σ) (hok : compileTree e = .ok st') :
    ∀ r ∈ st'.routes, EmittedFrom e "" [] r := by
  intro r hr
  rcases (processElement_spec_aux (sizeOf e)).1 e "" [] initSt st' (le_refl _) hok r hr with
    hold | he
  · simp [initSt] at hold
  · exact he

theorem executeNextMiddleware_all_pass {β : Type} (hid : Nat) (hres : β) :
    ∀ (mws : List (Nat × MwBeh β)),
      (∀ x ∈ mws, ∃ i, x = (i, MwBeh.pass)) →
      executeNextMiddleware traceStep (fun _ => ([hid], hres)) mws =
        (mws.map Prod.fst ++ [hid], hres) := by
  intro mws
  induction mws with
  | nil => intro _; simp [executeNextMiddleware]
  | cons x rest ih =>
      intro hall
      obtain ⟨i, hx⟩ := hall x (List.mem_cons_self x rest)
      subst hx
      have hrest := ih (fun y hy => hall y (List.mem_cons_of_mem _ hy))
      simp [executeNextMiddleware, traceStep, hrest]

theorem executeNextMiddleware_halt {β : Type} (hid : Nat) (hres : β) (i : Nat) (v : β)
    (l2 : List (Nat × MwBeh β)) :
    ∀ (l1 : List (Nat × MwBeh β)),
      (∀ x ∈ l1, ∃ j, x = (j, MwBeh.pass)) →
      executeNextMiddleware traceStep (fun _ => ([hid], hres))
          (l1 ++ (i, MwBeh.halt v) :: l2) =
        (l1.map Prod.fst ++ [i], v) := by
  intro l1
  induction l1 with
  | nil => intro _; simp [executeNextMiddleware, traceStep]
  | cons x rest ih =>
      intro hall
      obtain ⟨j, hx⟩ := hall x (List.mem_cons_self x rest)
      subst hx
      have hrest := ih (fun y hy => hall y (List.mem_cons_of_mem _ hy))
      simp [executeNextMiddleware, traceStep, hrest]

/-- C1: for every compiled route, the middleware chain is exactly the
App-level middlewares in declaration order, then each enclosing
RouteGroup's middlewares outer-to-inner, then the Route-level ones —
the first conjunct exhibits the compiled chain as the inherited
accumulation `ems` (whose `RouteIn` derivation fixes that order)
followed by the Route's own `middleware` prop; the second conjunct runs
`executeNextMiddleware` over the chain: when every middleware invokes
its continuation the executed order is exactly the chain order followed
by the handler; the third conjunct: if a middleware returns without
invoking its continuation, no later middleware and not the handler
executes and its return value becomes the dispatch result. -/
theorem claim_middleware_order_short_circuit {β η σ : Type}
    (e : Element (Nat × MwBeh β) η σ) (st : CompileSt (Nat × MwBeh β) η σ)
    (hok : compileTree e = .ok st) (r : RouteDef (Nat × MwBeh β) η σ) (hr : r ∈ st.routes)
    (hid : Nat) (hres : β) :
    (∃ ps ems rp, RouteIn e ps ems rp ∧ r.middlewares = ems ++ rp.middleware) ∧
    ((∀ x ∈ r.middlewares, ∃ i, x = (i, MwBeh.pass)) →
      executeNextMiddleware traceStep (fun _ => ([hid], hres)) r.middlewares =
        (r.middlewares.map Prod.fst ++ [hid], hres)) ∧
    (∀ l1 i v l2, r.middlewares = l1 ++ (i, MwBeh.halt v) :: l2 →
      (∀ x ∈ l1, ∃ j, x = (j, MwBeh.pass)) →
      executeNextMiddleware traceStep (fun _ => ([hid], hres)) r.middlewares =
        (l1.map Prod.fst ++ [i], v)) := by
  refine ⟨?_, ?_, ?_⟩
  · obtain ⟨ps, ems, rp, p, m, h, hin, _, _, _, _, _, _, hmid, _⟩ :=
      compiled_route_emitted e st hok r hr
    refine ⟨ps, ems, rp, hin, ?_⟩
    simpa using hmid
  · exact executeNextMiddleware_all_pass hid hres r.middlewares
  · intro l1 i v l2 hsplit hall
    rw [hsplit]
    exact executeNextMiddleware_halt hid hres i v l2 l1 hall

/-- C1 instance: the chain compiled from App (mw 0) → RouteGroup (mw 1)
→ Route (mw 2) executes 0, 1, 2, then the handler (9); when mw 1 halts,
only 0 and 1 execute and the halt value is the result. -/
theorem claim_middleware_order_short_circuit_w :
    executeNextMiddleware traceStep (fun _ => ([9], "done")) exChainRoute.middlewares =
      ([0, 1, 2, 9], "done") ∧
    executeNextMiddleware traceStep (fun _ => ([9], "done")) exHaltRoute.middlewares =
      ([0, 1], "stopped") := by
  have h1 := claim_middleware_order_short_circuit exChainTree
    { routes := [exChainRoute], config := { port := some 9000, cors := none } }
    (by simp [compileTree, exChainTree, exChainRoute, processElement, processList,
          processGroupChildren, processRoute, initSt, groupPfxOf, collectMws, strTruthy,
          isMwNode, bodyAllowedMethods])
    exChainRoute (by simp) 9 "done"
  have h2 := claim_middleware_order_short_circuit exHaltTree
    { routes := [exHaltRoute], config := { port := some 9000, cors := none } }
    (by simp [compileTree, exHaltTree, exHaltRoute, processElement, processList,
          processGroupChildren, processRoute, initSt, groupPfxOf, collectMws, strTruthy,
          isMwNode, bodyAllowedMethods])
    exHaltRoute (by simp) 9 "done"
  constructor
  · have hall : ∀ x ∈ exChainRoute.middlewares, ∃ i, x = (i, MwBeh.pass) := by
      intro x hx
      simp [exChainRoute] at hx
      rcases hx with rfl | rfl | rfl
      exacts [⟨0, rfl⟩, ⟨1, rfl⟩, ⟨2, rfl⟩]
    have h3 := h1.2.1 hall
    simpa [exChainRoute] using h3
  · have h4 := h2.2.2 [(0, MwBeh.pass)] 1 "stopped" [(2, MwBeh.pass)]
      (by simp [exHaltRoute])
      (by intro x hx; simp at hx; subst hx; exact ⟨0, rfl⟩)
    simpa [exHaltRoute] using h4

/-- C2: every compiled RouteDefinition's path equals the concatenation
of the enclosing RouteGroup prefixes (outermost first; a group without
a truthy prefix contributes nothing, via `preList`) and the Route's own
path literal. -/
theorem claim_route_path_prefix_concat {μ η σ : Type} (e : Element μ η σ)
    (st : CompileSt μ η σ) (hok : compileTree e = .ok st) :
    ∀ r ∈ st.routes, ∃ ps ems rp p, RouteIn e ps ems rp ∧ rp.path = some p ∧
      r.path = strJoin ps ++ p := by
  intro r hr
  obtain ⟨ps, ems, rp, p, m, h, hin, hp, _, _, _, _, hpath, _⟩ :=
    compiled_route_emitted e st hok r hr
  refine ⟨ps, ems, rp, p, hin, hp, ?_⟩
  rw [hpath]
  simp [String.empty_append]

/-- C2 instance: the doubly nested fixture compiles its route to the
path `/api/v1/users` = `/api` ++ `/v1` ++ `/users`. -/
theorem claim_route_path_prefix_concat_w :
    ∃ ps ems rp p, RouteIn exPathTree ps ems rp ∧ rp.path = some p ∧
      "/api/v1/users" = strJoin ps ++ p := by
  have h := claim_route_path_prefix_concat exPathTree
    { routes := [{ method := lowerStr "GET", path := "/api/v1/users", handler := (),
                   middlewares := [], querySchema := none, bodySchema := none }],
      config := { port := some 9000, cors := none } }
    (by simp [compileTree, exPathTree, processElement, processList, processGroupChildren,
          processRoute, initSt, groupPfxOf, collectMws, strTruthy, isMwNode,
          bodyAllowedMethods])
    { method := lowerStr "GET", path := "/api/v1/users", handler := (),
      middlewares := [], querySchema := none, bodySchema := none } (by simp)
  simpa using h

/-- C3: for a handler/middleware result that is a Response node, the
engine's normalization equals the spec's first-matching-branch order
(headers first; then redirect with the numeric status else 302; else
text as text/plain with the provided status; else html; else json;
else status-only; else 200 empty) — for props whose numeric status is
not the JS-falsy `0` and whose redirect is not the JS-falsy empty
string, the only inputs where the source's truthiness tests and the
spec's "is set" wording could be read apart. -/
theorem claim_response_node_first_matching_branch (p : RespProps) (res : ResState)
    (hst : p.status ≠ some 0) (hrd : p.redirect ≠ some "") :
    sendResponseFromOutput res (.respEl p) = respElSpec res p := by
  obtain ⟨j, st, t, h, hd, rd⟩ := p
  cases rd <;> cases st <;> cases t <;> cases h <;> cases j <;>
    simp_all [sendResponseFromOutput, respElSend, respElSpec, strTruthy, natTruthy, maybeStatus]

/-- C3 instance: a Response node with json, status 201 and a header
normalizes per the spec branch order; concretely it yields status 201,
the header, and the JSON body. -/
theorem claim_response_node_first_matching_branch_w :
    sendResponseFromOutput freshRes (.respEl
      { json := some (.jobj [("msg", .jstr "x")]), status := some 201, text := none,
        html := none, headers := some [("X-A", "1")], redirect := none }) =
      respElSpec freshRes
      { json := some (.jobj [("msg", .jstr "x")]), status := some 201, text := none,
        html := none, headers := some [("X-A", "1")], redirect := none } ∧
    sendResponseFromOutput freshRes (.respEl
      { json := some (.jobj [("msg", .jstr "x")]), status := some 201, text := none,
        html := none, headers := some [("X-A", "1")], redirect := none }) =
      { headersSent := true, headers := [("X-A", "1")], status := 201,
        body := .jsonBody (.jobj [("msg", .jstr "x")]) } := by
  constructor
  · exact claim_response_node_first_matching_branch _ freshRes (by simp) (by simp)
  · rfl

/-- C8: for non-Response results — a falsy result yields 500 with body
error "No response generated" when no response has been sent (and is a
no-op otherwise); a non-falsy non-Response object yields 500 with body
error "Invalid response format" when no response has been sent (and is
a no-op otherwise); any other truthy primitive is serialized to text
and sent, leaving the default status (200 on a fresh response). -/
theorem claim_non_response_output_handling (res : ResState) (s : String) :
    (res.headersSent = false →
      sendResponseFromOutput res .falsy =
        resJson (applyStatus res 500) (errJson "No response generated")) ∧
    (res.headersSent = true → sendResponseFromOutput res .falsy = res) ∧
    (res.headersSent = false →
      sendResponseFromOutput res .plainObj =
        resJson (applyStatus res 500) (errJson "Invalid response format")) ∧
    (res.headersSent = true → sendResponseFromOutput res .plainObj = res) ∧
    sendResponseFromOutput res (.prim s) = resSendRaw res s ∧
    (sendResponseFromOutput res (.prim s)).status = res.status := by
  refine ⟨?_, ?_, ?_, ?_, ?_, ?_⟩ <;>
    simp_all [sendResponseFromOutput, resSendRaw]

/-- C8 instance: on a fresh response, `undefined` yields 500 with body
error "No response generated"; a plain object yields 500 "Invalid
response format"; the primitive "ok" is sent as text with status 200. -/
theorem claim_non_response_output_handling_w :
    sendResponseFromOutput freshRes .falsy =
      resJson (applyStatus freshRes 500) (errJson "No response generated") ∧
    sendResponseFromOutput freshRes .plainObj =
      resJson (applyStatus freshRes 500) (errJson "Invalid response format") ∧
    sendResponseFromOutput freshRes (.prim "ok") = resSendRaw freshRes "ok" ∧
    (sendResponseFromOutput freshRes (.prim "ok")).status = 200 := by
  have h := claim_non_response_output_handling freshRes "ok"
  exact ⟨h.1 rfl, h.2.2.1 rfl, h.2.2.2.2.1, h.2.2.2.2.2⟩

theorem lookupHeader_upsert (hs : List (String × String)) (h v : String) :
    lookupHeader (upsertHeader hs h v) h = some v := by
  induction hs with
  | nil => simp [upsertHeader, lookupHeader]
  | cons x rest ih =>
      by_cases hx : x.1 = h
      · simp [upsertHeader, lookupHeader, hx]
      · simpa [upsertHeader, lookupHeader, hx] using ih

/-- C4: for a request whose path has at least one registered method
(`methodsByPath` hit), whose method is not among them, and for which no
method-specific handler matched, the engine responds 405 with an
`Allow` header equal to the registered upper-cased methods joined by a
comma and space, and the exact structured JSON body naming the path
and the attempted method. -/
theorem claim_method_not_allowed_405 {μ η σ : Type} (rs : List (RouteDef μ η σ))
    (reqMethod reqPath : String) (res : ResState) (ms : List String)
    (hms : lookupAssoc (methodsByPath (rs.filter (fun r => !(r.path == "*")))) reqPath =
      some ms)
    (hnot : ms.contains reqMethod = false)
    (hnomatch : (rs.filter (fun r => !(r.path == "*"))).find?
      (fun r => routeMatches r reqMethod reqPath) = none) :
    dispatch rs reqMethod reqPath res = .responded (res405 res reqMethod reqPath ms) ∧
    (res405 res reqMethod reqPath ms).status = 405 ∧
    lookupHeader (res405 res reqMethod reqPath ms).headers "Allow" =
      some (String.intercalate ", " ms) ∧
    (res405 res reqMethod reqPath ms).body = .jsonBody (.jobj
      [("error", .jstr "Method Not Allowed"),
       ("message", .jstr ("Method " ++ reqMethod ++ " is not allowed for path " ++ reqPath)),
       ("path", .jstr reqPath),
       ("method", .jstr reqMethod)]) := by
  refine ⟨?_, rfl, ?_, rfl⟩
  · simp only [dispatch, hnomatch, hms, hnot]
    simp
  · simpa [res405, resJson, applyStatus, setHeaderRes] using
      lookupHeader_upsert res.headers "Allow" (String.intercalate ", " ms)

/-- C4 instance: with only `GET /a` registered, `DELETE /a` gets a 405
whose `Allow` header is "GET" and whose JSON body names the method and
path. -/
theorem claim_method_not_allowed_405_w :
    dispatch exRoutes405 "DELETE" "/a" freshRes =
      .responded (res405 freshRes "DELETE" "/a" [upperStr "get"]) ∧
    (res405 freshRes "DELETE" "/a" [upperStr "get"]).status = 405 ∧
    lookupHeader (res405 freshRes "DELETE" "/a" [upperStr "get"]).headers "Allow" =
      some (String.intercalate ", " [upperStr "get"]) ∧
    (res405 freshRes "DELETE" "/a" [upperStr "get"]).body = .jsonBody (.jobj
      [("error", .jstr "Method Not Allowed"),
       ("message", .jstr ("Method " ++ "DELETE" ++ " is not allowed for path " ++ "/a")),
       ("path", .jstr "/a"),
       ("method", .jstr "DELETE")]) := by
  exact claim_method_not_allowed_405 exRoutes405 "DELETE" "/a" freshRes [upperStr "get"]
    (by simp [exRoutes405, methodsByPath, addMethod, lookupAssoc])
    (by decide)
    (by simp [exRoutes405, routeMatches, supportedMethods]; decide)

/-- C10: a Route node lacking a (truthy) path or lacking a children
handler is silently skipped: compilation returns the state unchanged —
no RouteDefinition, no error — even when the method is missing or a
body schema is declared; the missing-method and body-schema checks run
only when both path and children are present. -/
theorem claim_incomplete_route_skipped {μ η σ : Type} (rp : RouteProps μ η σ)
    (pfx : String) (mws : List μ) (st : CompileSt μ η σ)
    (h : rp.path = none ∨ rp.path = some "" ∨ rp.children = none) :
    processElement (.route rp) pfx mws st = .ok st := by
  have hpr : processRoute rp pfx mws st = .ok st := by
    rcases h with h | h | h
    · rcases hc : rp.children with _ | hh <;> simp [processRoute, h, hc]
    · rcases hc : rp.children with _ | hh <;> simp [processRoute, h, hc]
    · rcases hpp : rp.path with _ | p <;> simp [processRoute, hpp, h]
  simp [processElement, hpr]

/-- C10 instance: a pathless Route that even declares a body schema and
omits the method compiles to the unchanged state — no error, no route. -/
theorem claim_incomplete_route_skipped_w :
    processElement (μ := Unit) (η := Unit) (σ := Unit)
      (.route { path := none, method := none, middleware := [],
                children := some (), query := none, body := some () }) "" [] initSt =
      .ok initSt :=
  claim_incomplete_route_skipped _ "" [] initSt (Or.inl rfl)

/-- C5: for a Route node with a truthy path and a children handler that
declares a body schema, compilation succeeds only if its upper-cased
method is one of POST, PUT, PATCH, DELETE; with an upper-cased method
GET it throws the build-time body-schema error (and, the walk aborting
exceptionally, emits no RouteDefinition). -/
theorem claim_body_schema_method_restriction {μ η σ : Type} (rp : RouteProps μ η σ)
    (pfx : String) (mws : List μ) (st : CompileSt μ η σ) (p : String) (hd : η)
    (hp : rp.path = some p) (hpe : p ≠ "") (hc : rp.children = some hd)
    (hb : rp.body.isSome = true) :
    (∀ st', processElement (.route rp) pfx mws st = .ok st' →
       ∃ m, rp.method = some m ∧ upperStr m ∈ bodyAllowedMethods) ∧
    (∀ m, rp.method = some m → upperStr m = "GET" →
       processElement (.route rp) pfx mws st =
         .error ("Route " ++ upperStr m ++ " " ++ (pfx ++ p) ++
           " cannot declare a body schema.")) := by
  constructor
  · intro st' hok
    simp only [processElement] at hok
    rcases processRoute_ok_cases hok with ⟨hskip, _⟩ |
      ⟨p', m, h', hp', hpe', hc', hm, hme, hguard, _⟩
    · rcases hskip with h | h | h
      · rw [hp] at h; exact Option.noConfusion h
      · rw [hp] at h
        exact absurd (Option.some.inj h) hpe
      · rw [hc] at h; exact Option.noConfusion h
    · refine ⟨m, hm, ?_⟩
      rw [hb] at hguard
      simp only [Bool.true_and, Bool.not_eq_false'] at hguard
      exact List.mem_of_elem_eq_true hguard
  · intro m hm hup
    have hme : m ≠ "" := by
      intro hmz
      rw [hmz] at hup
      exact absurd hup (by decide)
    have hcon : bodyAllowedMethods.contains (upperStr m) = false := by
      rw [hup]; decide
    simp [processElement, processRoute, hp, hc, hpe, hm, hme, hb, hcon]
    rw [hup]
    decide

/-- C5 instance: compiling `GET /x` with a body schema throws the
build-time error naming the method and full path. -/
theorem claim_body_schema_method_restriction_w :
    processElement (μ := Unit) (η := Unit) (σ := Unit)
      (.route { path := some "/x", method := some "GET", middleware := [],
                children := some (), query := none, body := some () }) "" [] initSt =
      .error ("Route " ++ upperStr "GET" ++ " " ++ ("" ++ "/x") ++
        " cannot declare a body schema.") :=
  (claim_body_schema_method_restriction
    { path := some "/x", method := some "GET", middleware := [],
      children := some (), query := none, body := some () } "" [] initSt "/x" ()
    rfl (by decide) rfl rfl).2 "GET" rfl (by decide)

theorem processElement_config_aux {μ η σ : Type} (n : Nat) :
    (∀ (e : Element μ η σ) (pfx : String) (mws : List μ) (st st' : CompileSt μ η σ),
       sizeOf e ≤ n → AppFree e → processElement e pfx mws st = .ok st' →
       st'.config = st.config) ∧
    (∀ (els : List (Element μ η σ)) (pfx : String) (mws : List μ) (st st' : CompileSt μ η σ),
       sizeOf els ≤ n → (∀ e ∈ els, AppFree e) → processList els pfx mws st = .ok st' →
       st'.config = st.config) ∧
    (∀ (els : List (Element μ η σ)) (pfx : String) (mws : List μ) (st st' : CompileSt μ η σ),
       sizeOf els ≤ n → (∀ e ∈ els, AppFree e) → processGroupChildren els pfx mws st = .ok st' →
       st'.config = st.config) := by
  induction n using Nat.strong_induction_on with
  | _ n ih =>
  refine ⟨?_, ?_, ?_⟩
  · intro e pfx mws st st' hsz haf hok
    cases e with
    | nullish => simp only [processElement, Except.ok.injEq] at hok; subst hok; rfl
    | fnComp e1 =>
        simp only [processElement] at hok
        have hlt : sizeOf e1 < n := by simp at hsz; omega
        cases haf with
        | fnComp h1 => exact (ih _ hlt).1 e1 pfx mws st st' (le_refl _) h1 hok
    | seq els =>
        simp only [processElement] at hok
        have hlt : sizeOf els < n := by simp at hsz; omega
        cases haf with
        | seq hall => exact (ih _ hlt).2.1 els pfx mws st st' (le_refl _) hall hok
    | app port cors appMws children => cases haf
    | group pre groupMws children =>
        simp only [processElement] at hok
        have hlt : sizeOf children < n := by simp at hsz; omega
        cases haf with
        | group hall => exact (ih _ hlt).2.2 children _ _ st st' (le_refl _) hall hok
    | route rp =>
        simp only [processElement] at hok
        rcases processRoute_ok_cases hok with ⟨_, heq⟩ | ⟨p, m, hh, _, _, _, _, _, _, heq⟩ <;>
          subst heq <;> rfl
    | mwNode use => simp only [processElement, Except.ok.injEq] at hok; subst hok; rfl
    | container children =>
        simp only [processElement] at hok
        have hlt : sizeOf children < n := by simp at hsz; omega
        cases haf with
        | container hall => exact (ih _ hlt).2.1 children pfx mws st st' (le_refl _) hall hok
  · intro els pfx mws st st' hsz hall hok
    cases els with
    | nil => simp only [processList, Except.ok.injEq] at hok; subst hok; rfl
    | cons e1 rest =>
        simp only [processList] at hok
        cases he1 : processElement e1 pfx mws st with
        | error msg => rw [he1] at hok; simp at hok
        | ok st1 =>
            rw [he1] at hok
            have hlt1 : sizeOf e1 < n := by simp at hsz; omega
            have hltr : sizeOf rest < n := by simp at hsz; omega
            have c1 := (ih _ hlt1).1 e1 pfx mws st st1 (le_refl _)
              (hall e1 (List.mem_cons_self e1 rest)) he1
            have c2 := (ih _ hltr).2.1 rest pfx mws st1 st' (le_refl _)
              (fun x hx => hall x (List.mem_cons_of_mem _ hx)) hok
            rw [c2, c1]
  · intro els pfx mws st st' hsz hall hok
    cases els with
    | nil => simp only [processGroupChildren, Except.ok.injEq] at hok; subst hok; rfl
    | cons e1 rest =>
        simp only [processGroupChildren] at hok
        have hltr : sizeOf rest < n := by simp at hsz; omega
        by_cases hmw : isMwNode e1 = true
        · rw [if_pos hmw] at hok
          exact (ih _ hltr).2.2 rest pfx mws st st' (le_refl _)
            (fun x hx => hall x (List.mem_cons_of_mem _ hx)) hok
        · rw [if_neg hmw] at hok
          cases he1 : processElement e1 pfx mws st with
          | error msg => rw [he1] at hok; simp at hok
          | ok st1 =>
              rw [he1] at hok
              have hlt1 : sizeOf e1 < n := by simp at hsz; omega
              have c1 := (ih _ hlt1).1 e1 pfx mws st st1 (le_refl _)
                (hall e1 (List.mem_cons_self e1 rest)) he1
              have c2 := (ih _ hltr).2.2 rest pfx mws st1 st' (le_refl _)
                (fun x hx => hall x (List.mem_cons_of_mem _ hx)) hok
              rw [c2, c1]

/-- C6 counterexample: a tree whose App node omits the port prop makes
`serve` listen on 9000 — the App-extraction default `props.port || 9000`
— and not on 6969 as the claim states. -/
theorem claim_serve_port_default_counterexample :
    servePort (Element.app (μ := Unit) (η := Unit) (σ := Unit) none none [] []) =
      .ok 9000 ∧ (9000 : Nat) ≠ 6969 := by
  constructor
  · simp [servePort, compileTree, processElement, processList, initSt]
    rfl
  · decide

/-- C6 amended: `serve` binds to `appConfig.port || 6969`, but an App
node that omits the port prop records `props.port || 9000 = 9000` into
the config, so such a tree listens on 9000; only a tree with no App
node at all (config left unset) listens on the 6969 fallback. -/
theorem claim_serve_port_selection {μ η σ : Type} :
    (∀ (cors : Option Bool) (appMws : List μ) (children : List (Element μ η σ)) st',
       (∀ c ∈ children, AppFree c) →
       compileTree (.app none cors appMws children) = .ok st' →
       servePort (.app none cors appMws children) = .ok 9000) ∧
    (∀ (e : Element μ η σ) st', AppFree e → compileTree e = .ok st' →
       servePort e = .ok 6969) := by
  constructor
  · intro cors appMws children st' hall hok
    have hok2 := hok
    simp only [compileTree, processElement] at hok2
    have hcfg := (processElement_config_aux (sizeOf children)).2.1 children _ _ _ st'
      (le_refl _) hall hok2
    simp only [servePort, hok, Except.map]
    rw [hcfg]
    rfl
  · intro e st' haf hok
    have hcfg := (processElement_config_aux (sizeOf e)).1 e "" [] initSt st'
      (le_refl _) haf hok
    simp only [servePort, hok, Except.map]
    rw [hcfg]
    rfl

/-- C6 amended instance: an App without port over one route listens on
9000; the App-free tree `nullish` listens on 6969. -/
theorem claim_serve_port_selection_w :
    servePort (Element.app (μ := Unit) (η := Unit) (σ := Unit) none none []
      [.route { path := some "/x", method := some "GET", middleware := [],
                children := some (), query := none, body := none }]) = .ok 9000 ∧
    servePort (Element.nullish (μ := Unit) (η := Unit) (σ := Unit)) = .ok 6969 := by
  constructor
  · exact claim_serve_port_selection.1 none []
      [.route { path := some "/x", method := some "GET", middleware := [],
                children := some (), query := none, body := none }]
      { routes := [{ method := lowerStr "GET", path := "/x", handler := (),
                     middlewares := [], querySchema := none, bodySchema := none }],
        config := { port := some 9000, cors := none } }
      (by intro c hc; simp at hc; subst hc; exact AppFree.route)
      (by simp [compileTree, processElement, processList, processRoute, initSt,
            bodyAllowedMethods])
  · exact claim_serve_port_selection.2 Element.nullish initSt AppFree.nullish
      (by simp [compileTree, processElement])

theorem lookupAssoc_upsert {α : Type} (m : List (String × α)) (k : String) (v : α) :
    lookupAssoc (upsertAssoc m k v) k = some v := by
  induction m with
  | nil => simp [upsertAssoc, lookupAssoc]
  | cons x rest ih =>
      by_cases hx : x.1 = k
      · simp [upsertAssoc, lookupAssoc, hx]
      · simpa [upsertAssoc, lookupAssoc, hx] using ih

/-- C7: every error thrown during middleware-chain or handler execution
is caught at the top of the request wrapper: the response becomes the
generic 500 JSON `error: Internal server error` exactly when nothing
has been sent yet, and is left untouched otherwise; the thrown value
never appears in the response (the right-hand sides do not mention
`msg`); and the active scope is cleared to `none` on every exit path —
success, caught error, or response already sent. -/
theorem claim_error_caught_scope_cleared {ν : Type} (mws : List (Prog ν)) (handler : Prog ν)
    (bodySchema querySchema : Option ν) (rq : ReqInfo ν) (g : List (String × ν))
    (res : ResState) :
    (createExpressHandler mws handler bodySchema querySchema rq g res).2.1 = none ∧
    (∀ msg s1,
       executeNextMiddleware runProg (handlerCont handler) mws
         { scope := some (seedWithSchemas bodySchema querySchema rq), global := g,
           res := res } = .error (msg, s1) →
       (s1.res.headersSent = false →
         (createExpressHandler mws handler bodySchema querySchema rq g res).1 =
           resJson (applyStatus s1.res 500) (errJson "Internal server error")) ∧
       (s1.res.headersSent = true →
         (createExpressHandler mws handler bodySchema querySchema rq g res).1 = s1.res)) := by
  constructor
  · unfold createExpressHandler
    cases hrun : executeNextMiddleware runProg (handlerCont handler) mws
      { scope := some (seedWithSchemas bodySchema querySchema rq), global := g,
        res := res } with
    | ok pr => obtain ⟨out, s⟩ := pr; rfl
    | error pr => obtain ⟨msg, s⟩ := pr; rfl
  · intro msg s1 hrun
    unfold createExpressHandler
    rw [hrun]
    constructor
    · intro hsent; simp [hsent]
    · intro hsent; simp [hsent]

/-- C7 instance: a throwing middleware yields the generic 500 body with
the scope cleared; when a middleware marks the response sent before
throwing, the response is left untouched; the thrown value "boom"
appears nowhere in either response. -/
theorem claim_error_caught_scope_cleared_w :
    (createExpressHandler [Prog.throwErr "boom"] (Prog.ret (OutVal.prim "x"))
      none none exReq [] freshRes).2.1 = none ∧
    (createExpressHandler [Prog.throwErr "boom"] (Prog.ret (OutVal.prim "x"))
      none none exReq [] freshRes).1 =
      resJson (applyStatus freshRes 500) (errJson "Internal server error") ∧
    (createExpressHandler [Prog.resEffect (fun r => { r with headersSent := true })
        (Prog.throwErr "boom")] (Prog.ret (OutVal.prim "x"))
      none none exReq [] freshRes).1 = { freshRes with headersSent := true } := by
  have h1 := claim_error_caught_scope_cleared (ν := Unit) [Prog.throwErr "boom"]
    (Prog.ret (OutVal.prim "x")) none none exReq [] freshRes
  have h2 := claim_error_caught_scope_cleared (ν := Unit)
    [Prog.resEffect (fun r => { r with headersSent := true }) (Prog.throwErr "boom")]
    (Prog.ret (OutVal.prim "x")) none none exReq [] freshRes
  refine ⟨h1.1, ?_, ?_⟩
  · exact (h1.2 "boom" { scope := some (seedWithSchemas none none exReq), global := [],
                           res := freshRes } rfl).1 rfl
  · exact (h2.2 "boom" { scope := some (seedWithSchemas none none exReq), global := [],
                           res := { freshRes with headersSent := true } } rfl).2 rfl

/-- C9: within an active scope, writing a reserved key (body, query or
params) updates both the scope's entries map and the corresponding
structured field, a subsequent context read of that key in the
resulting state returns the written value, and — by the chain
semantics — the updated state is exactly the state every
later-executing middleware and the handler run in. -/
theorem claim_reserved_context_write_visible {ν : Type} (sc : Scope ν)
    (g : List (String × ν)) (k : String) (v : ν)
    (hk : k = "body" ∨ k = "query" ∨ k = "params") :
    (∃ sc', useSetContext k v (some sc, g) = (some sc', g) ∧
      lookupAssoc sc'.middlewareContext k = some v ∧
      (k = "body" → sc'.body = v) ∧
      (k = "query" → sc'.query = v) ∧
      (k = "params" → sc'.params = v) ∧
      useContextKey k (some sc', g) = some v) ∧
    (∀ (rest : List (Prog ν)) (handler : Prog ν) (s : ExecSt ν),
      executeNextMiddleware runProg (handlerCont handler)
        (Prog.setCtx k v Prog.callNext :: rest) s =
      executeNextMiddleware runProg (handlerCont handler) rest (execSetCtx k v s)) := by
  constructor
  · rcases hk with rfl | rfl | rfl
    · refine ⟨{ sc with
                middlewareContext := upsertAssoc sc.middlewareContext "body" v,
                body := v }, by simp [useSetContext], lookupAssoc_upsert _ _ _,
        fun _ => rfl, fun h => absurd h (by decide), fun h => absurd h (by decide), ?_⟩
      simp [useContextKey, lookupAssoc_upsert]
    · refine ⟨{ sc with
                middlewareContext := upsertAssoc sc.middlewareContext "query" v,
                query := v }, by simp [useSetContext], lookupAssoc_upsert _ _ _,
        fun h => absurd h (by decide), fun _ => rfl, fun h => absurd h (by decide), ?_⟩
      simp [useContextKey, lookupAssoc_upsert]
    · refine ⟨{ sc with
                middlewareContext := upsertAssoc sc.middlewareContext "params" v,
                params := v }, by simp [useSetContext], lookupAssoc_upsert _ _ _,
        fun h => absurd h (by decide), fun h => absurd h (by decide), fun _ => rfl, ?_⟩
      simp [useContextKey, lookupAssoc_upsert]
  · intro rest handler s
    rfl

/-- C9 instance: writing body := 42 inside a seeded scope updates both
the entries map and the structured body field, and the subsequent read
returns 42. -/
theorem claim_reserved_context_write_visible_w :
    ∃ sc', useSetContext "body" (42 : Nat) (some (seedScope exReqN), []) = (some sc', []) ∧
      lookupAssoc sc'.middlewareContext "body" = some 42 ∧
      sc'.body = 42 ∧
      useContextKey "body" (some sc', []) = some 42 := by
  obtain ⟨⟨sc', h1, h2, h3, _, _, h6⟩, _⟩ :=
    claim_reserved_context_write_visible (seedScope exReqN) [] "body" 42 (Or.inl rfl)
  exact ⟨sc', h1, h2, h3 rfl, h6⟩
